import Mathlib

/-!
# Verification of the font-enumeration pipeline (`src/main.rs`)

Shallow embedding of the data model and the pure logic of the Rust font
enumerator: the font record model, the three enumeration adapters
(GDI / DirectWrite / FontSet), the filter engine, the selection handler and
the status line.

Modelling conventions:

* Rust `String` values are modelled by Lean `String`.  Rust compares and
  searches strings at the UTF-8 byte level; since UTF-8 is self-synchronizing,
  byte-level substring containment and byte-level lexicographic comparison
  coincide with the corresponding operations on the underlying sequences of
  Unicode code points, so we work with `String.data : List Char`.
* Rust `str::to_lowercase` is modelled by a per-character lowercase map
  (`Char.toLower`).  The claims under verification do not depend on the exact
  lowercase table, only on the fact that both sides of a comparison are
  lowercased with the same length-preserving map.
* The operating system boundary (the values delivered by the OS enumeration
  callbacks and COM calls) is modelled by explicit input structures; every
  failure path of a fallible OS call is a dedicated constructor or a default
  value, mirroring the `match`/`if let` structure of the source.
* Machine integers (`i32` weights, `u8` pitch bytes, `u32` axis tags) are
  modelled by `Int`/`Nat`; none of the verified claims exercises overflow.
* Win32 side effects (ListView redraws, `MessageBoxW`, `SetWindowTextW`) are
  modelled as explicit return values: adapters return the successor state
  together with the list of user-visible error notifications they emit, and
  the status routine returns the string it would write into the status label.
-/

namespace FontEnum

/-- One font face, as in `struct FontInfo` of the source.  Field defaults
match `#[derive(Default)]` in Rust: empty strings, `0`, `false`. -/
structure FontInfo where
  family_name : String := ""
  style_name : String := ""
  file_path : String := ""
  variable_axes : String := ""
  weight : Int := 0
  italic : Bool := false
  fixed_pitch : Bool := false
  is_variable : Bool := false
deriving DecidableEq

/-- Which API produced the current font list (`enum EnumMode`). -/
inductive EnumMode where
  | NoneMode
  | Gdi
  | DirectWrite
  | FontSet
deriving DecidableEq

/-- The session-relevant part of `struct AppState` (window handles are UI
plumbing outside the model). -/
structure AppState where
  fonts : List FontInfo := []
  filtered_indices : List Nat := []
  filter_text : String := ""
  current_mode : EnumMode := .NoneMode
  selected_font : String := ""
deriving DecidableEq

/-- Model of Rust `str::to_lowercase` (per-character lowercase map; see the
header on modelling conventions). -/
def toLowercase (s : String) : String := ⟨s.data.map Char.toLower⟩

/-- The filter predicate body from `apply_filter`: an empty (lowercased)
query matches everything, otherwise the query must be a substring of the
lowercased family name or of the lowercased style name.  `<:+:` is list
containment of a contiguous segment, which is exactly Rust `str::contains`
(see the UTF-8 remark in the header). -/
def fontMatches (filterLower : String) (family style : String) : Bool :=
  filterLower.isEmpty
    || decide (filterLower.data <:+: (toLowercase family).data)
    || decide (filterLower.data <:+: (toLowercase style).data)

/-- The index computation inside `apply_filter`: lowercase the stored filter
text, then keep the indices of the records whose names match. -/
def filter_indices (fonts : List FontInfo) (filter_text : String) : List Nat :=
  let filterLower := toLowercase filter_text
  (fonts.enum.filter fun p => fontMatches filterLower p.2.family_name p.2.style_name).map
    Prod.fst

/-- `apply_filter()`: recomputes `filtered_indices` from `fonts` and
`filter_text`; the rest of the state is untouched (the ListView/status/preview
repaints it triggers are pure UI output). -/
def apply_filter (s : AppState) : AppState :=
  { s with filtered_indices := filter_indices s.fonts s.filter_text }

/-- The state mutation every successful enumeration performs
(`state.fonts = fonts; state.current_mode = ...; state.selected_font.clear()`
followed by `apply_filter()`). -/
def commitEnumeration (s : AppState) (fonts : List FontInfo) (mode : EnumMode) : AppState :=
  apply_filter { s with fonts := fonts, current_mode := mode, selected_font := "" }

/-- `update_status_text()`: the string written to the status label. -/
def update_status_text (s : AppState) : String :=
  let mode_str :=
    match s.current_mode with
    | .Gdi => "GDI"
    | .DirectWrite => "DirectWrite"
    | .FontSet => "FontSet"
    | .NoneMode => "No"
  if s.filter_text.isEmpty then
    mode_str ++ " Enumeration: Found " ++ toString s.fonts.length ++ " fonts"
  else
    mode_str ++ " Enumeration: Showing " ++ toString s.filtered_indices.length ++ " of "
      ++ toString s.fonts.length ++ " fonts"

/-! ## Legacy-table (GDI) adapter -/

/-- One face as reported to the `enum_font_proc` callback: the relevant
fields of `LOGFONTW`/`ENUMLOGFONTEXW` after the wide-string extraction
(`family_name` from `lfFaceName`, `style_name` from `elfStyle`). -/
structure GdiFace where
  family_name : String
  style_name : String
  weight : Int
  italic_byte : Nat
  pitch_and_family : Nat
deriving DecidableEq

/-- The `FontInfo` pushed by `enum_font_proc`: weight and italic copied from
the `LOGFONTW`, fixed pitch from the low 2 bits of `lfPitchAndFamily`
(`(pitch_and_family & 0x03) == 1`), everything else left at its default. -/
def mkGdiRecord (f : GdiFace) : FontInfo :=
  { family_name := f.family_name
    style_name := f.style_name
    weight := f.weight
    italic := f.italic_byte != 0
    fixed_pitch := f.pitch_and_family &&& 0x03 == 1 }

/-- One invocation of `enum_font_proc`: skip the face if a record with the
same `(family_name, style_name)` is already present, else push it. -/
def enum_font_step (fonts : List FontInfo) (f : GdiFace) : List FontInfo :=
  if fonts.any fun r => r.family_name == f.family_name && r.style_name == f.style_name then
    fonts
  else
    fonts ++ [mkGdiRecord f]

/-- The callback loop of `EnumFontFamiliesExW` (the callback always returns 1,
so every reported face is processed in order). -/
def gdi_collect (faces : List GdiFace) : List FontInfo :=
  faces.foldl enum_font_step []

/-- The GDI comparator `a.family_name.cmp(&b.family_name)` as a `≤` test
(byte-wise ordinal comparison; see the header). -/
def gdiLe (a b : FontInfo) : Bool :=
  decide (a.family_name.data ≤ b.family_name.data)

/-- The DirectWrite/FontSet comparator
`a.family_name.cmp(..).then(a.style_name.cmp(..))` as a `≤` test. -/
def pairLe (a b : FontInfo) : Bool :=
  decide (a.family_name.data < b.family_name.data
    ∨ (a.family_name.data = b.family_name.data ∧ a.style_name.data ≤ b.style_name.data))

/-- `enumerate_gdi_fonts()`: collect the reported faces (with in-loop
deduplication), sort by family name, commit.  `GetDC` has no failure path in
the source; the result of `EnumFontFamiliesExW` is ignored.  The second
component is the list of error notifications shown (always none). -/
def enumerate_gdi_fonts (faces : List GdiFace) (s : AppState) : AppState × List String :=
  let fonts := (gdi_collect faces).mergeSort gdiLe
  (commitEnumeration s fonts .Gdi, [])

/-! ## Collection-based (DirectWrite) adapter -/

/-- One font of a DirectWrite family: the style name as resolved by
`get_face_names` (empty on lookup failure), weight, the italic test
`GetStyle() != DWRITE_FONT_STYLE_NORMAL`, and the monospace capability
(`false` when the `IDWriteFont1` cast is unavailable). -/
structure DWFace where
  style_name : String
  weight : Int
  italic : Bool
  is_mono : Bool
deriving DecidableEq

/-- One DirectWrite family: its resolved name (empty on lookup failure) and
the faces for which `GetFont` succeeded, in order. -/
structure DWFamily where
  family_name : String
  faces : List DWFace
deriving DecidableEq

/-- Outcome of the DirectWrite initialization calls. -/
inductive DWriteInput where
  | factoryErr
  | collectionErr
  | collectionNone
  | ok (families : List DWFamily)

/-- The `FontInfo` pushed per DirectWrite face. -/
def dwRecord (family_name : String) (f : DWFace) : FontInfo :=
  { family_name := family_name
    style_name := f.style_name
    weight := f.weight
    italic := f.italic
    fixed_pitch := f.is_mono }

/-- The nested family/face loop of `enumerate_directwrite_fonts`. -/
def dwCollect : List DWFamily → List FontInfo
  | [] => []
  | fam :: rest => fam.faces.map (dwRecord fam.family_name) ++ dwCollect rest

/-- `enumerate_directwrite_fonts()`: every initialization failure is a bare
`return` — state untouched and no notification; on success the collected
records are sorted by `(family, style)` and committed. -/
def enumerate_directwrite_fonts (input : DWriteInput) (s : AppState) :
    AppState × List String :=
  match input with
  | .factoryErr => (s, [])
  | .collectionErr => (s, [])
  | .collectionNone => (s, [])
  | .ok families =>
      let fonts := (dwCollect families).mergeSort pairLe
      (commitEnumeration s fonts .DirectWrite, [])

/-! ## Indexed-set (FontSet) adapter -/

/-- One axis range reported by `GetFontAxisRanges`.  The `f32` bounds and the
`as i32` casts are modelled at the boundary as the resulting integers (the
claims do not depend on float rounding). -/
structure AxisRange where
  tag : Nat
  minValue : Int
  maxValue : Int
deriving DecidableEq

/-- The 4-byte axis tag printed little-end first, as in the source's
`(tag & 0xFF) as u8 as char` chain. -/
def tagToString (tag : Nat) : String :=
  ⟨[Char.ofNat (tag % 256), Char.ofNat (tag / 256 % 256), Char.ofNat (tag / 65536 % 256),
    Char.ofNat (tag / 16777216 % 256)]⟩

/-- The axis loop of `enumerate_fontset_fonts`: starting from the `Default`
pair `(variable_axes, is_variable) = ("", false)`, every axis whose minimum
and maximum differ sets `is_variable` and appends a `"<tag> <min>-<max>"`
fragment, separated by `", "` from a non-empty prefix. -/
def axis_step (acc : String × Bool) (r : AxisRange) : String × Bool :=
  if r.minValue ≠ r.maxValue then
    let withSep := if acc.1.isEmpty then acc.1 else acc.1 ++ ", "
    (withSep ++ tagToString r.tag ++ " " ++ toString r.minValue ++ "-"
        ++ toString r.maxValue,
      true)
  else acc

/-- The loop over the reported axis ranges. -/
def buildVariableAxes (ranges : List AxisRange) : String × Bool :=
  ranges.foldl axis_step ("", false)

/-- One entry of the system font set, with every fallible COM lookup already
resolved the way the source resolves it:
* `file_path` is the resolved path, `""` whenever any step of the
  local-file-loader chain fails (non-local loader, missing key, ...);
* `axisRanges` is the reported range list, `[]` whenever face creation, the
  `IDWriteFontFace5` cast, the resource lookup or the range query fails;
* the four `GetPropertyValues` results are `none` when the property is
  missing for this index (`i >= prop.GetCount()`), otherwise the extracted
  string; for weight and style the subsequent `s.parse::<i32>()` is modelled
  as its result (`none` = parse failure). -/
structure FSFace where
  file_path : String
  axisRanges : List AxisRange
  family_name : Option String
  style_name : Option String
  weight_parse : Option (Option Int)
  style_parse : Option (Option Int)
deriving DecidableEq

/-- The per-index body of the FontSet loop, producing the candidate record:
fields keep their `FontInfo::default()` value when the corresponding property
is absent; a present weight property parses with fallback 400, a present
style property parses with fallback 0 and sets italic iff nonzero. -/
def mkFSRecord (f : FSFace) : FontInfo :=
  let axes := buildVariableAxes f.axisRanges
  { family_name := (f.family_name).getD ""
    style_name := (f.style_name).getD ""
    file_path := f.file_path
    variable_axes := axes.1
    is_variable := axes.2
    weight := match f.weight_parse with
      | some p => p.getD 400
      | none => 0
    italic := match f.style_parse with
      | some p => (p.getD 0) != 0
      | none => false }

/-- Outcome of the FontSet initialization calls. -/
inductive FontSetInput where
  | factory3Err
  | fontSetErr
  | ok (faces : List FSFace)

/-- The text of the `MessageBoxW` shown when `IDWriteFactory3` creation
fails. -/
def fontset_error_message : String :=
  "Failed to create DirectWrite factory 3.\nThis feature requires Windows 10 or later."

/-- `enumerate_fontset_fonts()`: a factory-3 creation failure shows an error
box and returns with the state untouched; a font-set retrieval failure
returns silently; on success each face becomes a record, records with an
empty resolved family name are dropped, and the rest is sorted by
`(family, style)` and committed. -/
def enumerate_fontset_fonts (input : FontSetInput) (s : AppState) :
    AppState × List String :=
  match input with
  | .factory3Err => (s, [fontset_error_message])
  | .fontSetErr => (s, [])
  | .ok faces =>
      let fonts :=
        ((faces.map mkFSRecord).filter fun r => !r.family_name.isEmpty).mergeSort pairLe
      (commitEnumeration s fonts .FontSet, [])

/-! ## Selection handler -/

/-- What the `LVN_ITEMCHANGED` handler sends to the preview control on a
successful selection: the `CreateFontW` parameters it uses and the text it
sets. -/
structure PreviewRender where
  family : String
  weight : Int
  italic : Bool
  text : String
deriving DecidableEq

/-- The preview string
`format!("{} {}\r\n\r\nAaBbCcDdEeFfGgHhIiJjKk\r\n\r\n0123456789 !@#$%", ..)`. -/
def preview_text (family style : String) : String :=
  family ++ " " ++ style ++ "\r\n\r\nAaBbCcDdEeFfGgHhIiJjKk\r\n\r\n0123456789 !@#$%"

/-- The selection branch of `wnd_proc` (`WM_NOTIFY`/`LVN_ITEMCHANGED` with
`LVIS_SELECTED`): look up the stored index for the selected row; when it
resolves to a record, remember its family as `selected_font` and, when the
family name is non-empty, repaint the preview; otherwise do nothing.  (The
preview window handle is assumed valid, as `create_controls` made it.)  The
row index is the `iItem as usize` value. -/
def handle_selection (s : AppState) (iItem : Nat) : AppState × Option PreviewRender :=
  match s.filtered_indices[iItem]? with
  | some idx =>
      if h : idx < s.fonts.length then
        let font := s.fonts.get ⟨idx, h⟩
        let s' := { s with selected_font := font.family_name }
        if font.family_name.isEmpty then (s', none)
        else
          (s', some { family := font.family_name, weight := font.weight,
                      italic := font.italic,
                      text := preview_text font.family_name font.style_name })
      else (s, none)
  | none => (s, none)

/-! ## Helper lemmas -/

lemma toLowercase_empty_iff (q : String) : toLowercase q = "" ↔ q = "" := by
  constructor
  · intro h
    have hd := congrArg String.data h
    simp only [toLowercase, List.map_eq_nil_iff] at hd
    exact String.ext_iff.mpr hd
  · rintro rfl
    rfl

lemma toLowercase_isEmpty_iff (q : String) : (toLowercase q).isEmpty = true ↔ q = "" :=
  (String.isEmpty_iff _).trans (toLowercase_empty_iff q)

lemma fontMatches_of_ne {q : String} (fam sty : String) (hq : q ≠ "") :
    fontMatches (toLowercase q) fam sty = true
      ↔ ((toLowercase q).data <:+: (toLowercase fam).data
          ∨ (toLowercase q).data <:+: (toLowercase sty).data) := by
  have h : (toLowercase q).isEmpty = false :=
    Bool.eq_false_iff.mpr fun hc => hq ((toLowercase_isEmpty_iff q).mp hc)
  simp [fontMatches, h]

/-! ## C1: the filter engine -/

/-- C1: for every session state, `apply_filter` produces a strictly
increasing subsequence of `[0, |all_records|)` (a `Sublist` of `range`,
hence pairwise increasing); an empty query yields exactly the full range,
and a non-empty query keeps index `i` iff the lowercased query occurs as a
substring of the lowercased family name or of the lowercased style name of
record `i`. -/
theorem apply_filter_correct (s : AppState) :
    List.Sublist (apply_filter s).filtered_indices (List.range s.fonts.length)
    ∧ (apply_filter s).filtered_indices.Pairwise (· < ·)
    ∧ (s.filter_text = "" → (apply_filter s).filtered_indices = List.range s.fonts.length)
    ∧ (s.filter_text ≠ "" → ∀ i, i ∈ (apply_filter s).filtered_indices ↔
        ∃ f, s.fonts[i]? = some f
          ∧ ((toLowercase s.filter_text).data <:+: (toLowercase f.family_name).data
              ∨ (toLowercase s.filter_text).data <:+: (toLowercase f.style_name).data)) := by
  have hsub : List.Sublist (apply_filter s).filtered_indices (List.range s.fonts.length) := by
    show List.Sublist (filter_indices s.fonts s.filter_text) _
    simp only [filter_indices]
    have h :=
      (List.filter_sublist (l := s.fonts.enum)
        (p := fun p =>
          fontMatches (toLowercase s.filter_text) p.2.family_name p.2.style_name)).map
        Prod.fst
    rwa [List.enum_map_fst] at h
  refine ⟨hsub, (List.pairwise_lt_range _).sublist hsub, ?_, ?_⟩
  · intro hq
    show filter_indices s.fonts s.filter_text = _
    simp only [filter_indices]
    rw [List.filter_eq_self.mpr, List.enum_map_fst]
    intro p _
    rw [hq]
    rfl
  · intro hq i
    show i ∈ (s.fonts.enum.filter _).map Prod.fst ↔ _
    simp only [List.mem_map, List.mem_filter]
    constructor
    · rintro ⟨⟨j, f⟩, ⟨hmem, hp⟩, rfl⟩
      exact ⟨f, List.mk_mem_enum_iff_getElem?.mp hmem,
        (fontMatches_of_ne f.family_name f.style_name hq).mp hp⟩
    · rintro ⟨f, hget, hcond⟩
      exact ⟨(i, f), ⟨List.mk_mem_enum_iff_getElem?.mpr hget,
        (fontMatches_of_ne f.family_name f.style_name hq).mpr hcond⟩, rfl⟩

/-- Concrete record used by the C1 witness. -/
def wBoldRecord : FontInfo :=
  { family_name := "Arial", style_name := "Bold Italic", weight := 700 }

/-- Concrete state used by the C1 witness: two records, query `"bold"`. -/
def wFilterState : AppState :=
  { fonts := [{ family_name := "Arial", style_name := "Regular", weight := 400 }, wBoldRecord]
    filter_text := "bold" }

/-- Concrete state used by the C1 witness: two records, empty query. -/
def wEmptyState : AppState :=
  { fonts := [{ family_name := "Arial", style_name := "Regular", weight := 400 }, wBoldRecord]
    filter_text := "" }

/-- C1 witness: the query `"bold"` keeps exactly the record whose style is
`"Bold Italic"`, and the empty query yields the full range. -/
theorem apply_filter_correct_witness :
    1 ∈ (apply_filter wFilterState).filtered_indices
    ∧ (apply_filter wEmptyState).filtered_indices = List.range 2 := by
  constructor
  · exact ((apply_filter_correct wFilterState).2.2.2 (by decide) 1).mpr
      ⟨wBoldRecord, rfl, Or.inr (by decide)⟩
  · exact (apply_filter_correct wEmptyState).2.2.1 rfl

/-! ## C2: adapter failure behaviour -/

/-- C2 counterexample: a DirectWrite factory-creation failure (an OS
mechanism that "cannot be initialized") emits no user-visible notification
at all — the claimed error surfacing does not happen (the state is
nevertheless untouched). -/
theorem dwrite_failure_emits_no_notification :
    (enumerate_directwrite_fonts DWriteInput.factoryErr {}).2 = []
    ∧ (enumerate_directwrite_fonts DWriteInput.factoryErr {}).1 = ({} : AppState) :=
  ⟨rfl, rfl⟩

/-- C2 amended: on every initialization failure each adapter returns with
the session state completely untouched (no partial results, `active_source`
and `selected_family` unchanged); only the FontSet adapter's factory-3
failure surfaces a user-visible notification, the remaining failure paths
are silent.  (The GDI adapter has no failure path at all.) -/
theorem enumeration_failure_no_mutation (s : AppState) :
    enumerate_directwrite_fonts DWriteInput.factoryErr s = (s, [])
    ∧ enumerate_directwrite_fonts DWriteInput.collectionErr s = (s, [])
    ∧ enumerate_directwrite_fonts DWriteInput.collectionNone s = (s, [])
    ∧ enumerate_fontset_fonts FontSetInput.factory3Err s = (s, [fontset_error_message])
    ∧ enumerate_fontset_fonts FontSetInput.fontSetErr s = (s, []) :=
  ⟨rfl, rfl, rfl, rfl, rfl⟩

/-! ## C8: the GDI pitch bits -/

/-- C8: the GDI adapter reports a face as fixed pitch exactly when the low
2 bits of the OS-supplied pitch-and-family byte equal 1. -/
theorem fixed_pitch_low_bits (f : GdiFace) :
    (mkGdiRecord f).fixed_pitch = true ↔ f.pitch_and_family % 4 = 1 := by
  have h : f.pitch_and_family &&& 0x03 = f.pitch_and_family % 4 :=
    Nat.and_pow_two_sub_one_eq_mod f.pitch_and_family 2
  simp [mkGdiRecord, h]

/-! ## C9: the status line -/

/-- The spec's `SourceLabel` mapping from the active source. -/
def sourceLabel : EnumMode → String
  | .Gdi => "GDI"
  | .DirectWrite => "DirectWrite"
  | .FontSet => "FontSet"
  | .NoneMode => "No"

/-- C9: the rendered status string is
`"<SourceLabel> Enumeration: Found <N> fonts"` for an empty query and
`"<SourceLabel> Enumeration: Showing <M> of <N> fonts"` otherwise, with
`N = |all_records|` and `M = |visible_indices|`. -/
theorem status_text_format (s : AppState) :
    update_status_text s =
      if s.filter_text = "" then
        sourceLabel s.current_mode ++ " Enumeration: Found "
          ++ toString s.fonts.length ++ " fonts"
      else
        sourceLabel s.current_mode ++ " Enumeration: Showing "
          ++ toString s.filtered_indices.length ++ " of "
          ++ toString s.fonts.length ++ " fonts" := by
  rcases eq_or_ne s.filter_text "" with h | h
  · have he : s.filter_text.isEmpty = true := (String.isEmpty_iff _).mpr h
    rw [if_pos h]
    unfold update_status_text
    rw [if_pos he]
    cases s.current_mode <;> rfl
  · have he : s.filter_text.isEmpty = false :=
      Bool.eq_false_iff.mpr fun hc => h ((String.isEmpty_iff _).mp hc)
    rw [if_neg h]
    unfold update_status_text
    rw [if_neg (by simp [he])]
    cases s.current_mode <;> rfl

/-! ## C10: enumeration keeps the filter query -/

/-- C10: every adapter, on any outcome, leaves `filter_text` unchanged, and
a successful enumeration recomputes `filtered_indices` by applying that
same query to the newly committed font list. -/
theorem enumeration_preserves_filter (gfaces : List GdiFace) (fams : List DWFamily)
    (faces : List FSFace) (dwin : DWriteInput) (fsin : FontSetInput) (s : AppState) :
    (enumerate_gdi_fonts gfaces s).1.filter_text = s.filter_text
    ∧ (enumerate_directwrite_fonts dwin s).1.filter_text = s.filter_text
    ∧ (enumerate_fontset_fonts fsin s).1.filter_text = s.filter_text
    ∧ (enumerate_gdi_fonts gfaces s).1.filtered_indices
        = filter_indices (enumerate_gdi_fonts gfaces s).1.fonts s.filter_text
    ∧ (enumerate_directwrite_fonts (DWriteInput.ok fams) s).1.filtered_indices
        = filter_indices (enumerate_directwrite_fonts (DWriteInput.ok fams) s).1.fonts
            s.filter_text
    ∧ (enumerate_fontset_fonts (FontSetInput.ok faces) s).1.filtered_indices
        = filter_indices (enumerate_fontset_fonts (FontSetInput.ok faces) s).1.fonts
            s.filter_text := by
  cases dwin <;> cases fsin <;> exact ⟨rfl, rfl, rfl, rfl, rfl, rfl⟩

/-! ## C4: GDI deduplication -/

/-- The deduplication key `(family_name, style_name)`. -/
def recordKey (r : FontInfo) : String × String := (r.family_name, r.style_name)

/-- Modelled from the spec: "the first occurrence is kept and later
duplicates are skipped" — a face whose key was already seen is dropped, a
fresh face is emitted and its key remembered.  Used as the reference shape
for the accumulator-passing loop of `enum_font_proc`. -/
def keepFirstOccurrences (seen : List (String × String)) : List GdiFace → List FontInfo
  | [] => []
  | f :: rest =>
      if (f.family_name, f.style_name) ∈ seen then keepFirstOccurrences seen rest
      else mkGdiRecord f :: keepFirstOccurrences ((f.family_name, f.style_name) :: seen) rest

lemma keepFirstOccurrences_congr {seen₁ seen₂ : List (String × String)}
    (h : ∀ k, k ∈ seen₁ ↔ k ∈ seen₂) :
    ∀ faces, keepFirstOccurrences seen₁ faces = keepFirstOccurrences seen₂ faces := by
  intro faces
  induction faces generalizing seen₁ seen₂ with
  | nil => rfl
  | cons f rest ih =>
    unfold keepFirstOccurrences
    by_cases hk : (f.family_name, f.style_name) ∈ seen₁
    · rw [if_pos hk, if_pos ((h _).mp hk)]
      exact ih h
    · rw [if_neg hk, if_neg fun hc => hk ((h _).mpr hc)]
      refine congrArg _ (ih fun k => ?_)
      simp only [List.mem_cons]
      exact or_congr Iff.rfl (h k)

lemma any_key_eq (acc : List FontInfo) (f : GdiFace) :
    (acc.any fun r => r.family_name == f.family_name && r.style_name == f.style_name) = true
      ↔ (f.family_name, f.style_name) ∈ acc.map recordKey := by
  simp only [List.any_eq_true, Bool.and_eq_true, beq_iff_eq, List.mem_map, recordKey,
    Prod.mk.injEq]

lemma keepFirstOccurrences_cons (seen : List (String × String)) (f : GdiFace)
    (rest : List GdiFace) :
    keepFirstOccurrences seen (f :: rest)
      = if (f.family_name, f.style_name) ∈ seen then keepFirstOccurrences seen rest
        else
          mkGdiRecord f
            :: keepFirstOccurrences ((f.family_name, f.style_name) :: seen) rest := rfl

lemma enum_font_step_eq (acc : List FontInfo) (f : GdiFace) :
    enum_font_step acc f
      = if (f.family_name, f.style_name) ∈ acc.map recordKey then acc
        else acc ++ [mkGdiRecord f] := by
  unfold enum_font_step
  by_cases hk : (f.family_name, f.style_name) ∈ acc.map recordKey
  · rw [if_pos ((any_key_eq acc f).mpr hk), if_pos hk]
  · rw [if_neg fun hc => hk ((any_key_eq acc f).mp hc), if_neg hk]

lemma foldl_enum_font_step (faces : List GdiFace) (acc : List FontInfo) :
    faces.foldl enum_font_step acc
      = acc ++ keepFirstOccurrences (acc.map recordKey) faces := by
  induction faces generalizing acc with
  | nil => simp [keepFirstOccurrences]
  | cons f rest ih =>
    rw [List.foldl_cons, ih, enum_font_step_eq, keepFirstOccurrences_cons]
    by_cases hk : (f.family_name, f.style_name) ∈ acc.map recordKey
    · simp only [if_pos hk]
    · simp only [if_neg hk]
      rw [List.append_assoc, List.singleton_append]
      refine congrArg _ (congrArg _ ?_)
      have hmap : (acc ++ [mkGdiRecord f]).map recordKey
          = acc.map recordKey ++ [(f.family_name, f.style_name)] := by
        simp [recordKey, mkGdiRecord]
      rw [hmap]
      exact keepFirstOccurrences_congr (fun k => by simp [or_comm]) rest

lemma keepFirstOccurrences_nodup (faces : List GdiFace) (seen : List (String × String)) :
    ((keepFirstOccurrences seen faces).map recordKey).Nodup
    ∧ ∀ k ∈ (keepFirstOccurrences seen faces).map recordKey, k ∉ seen := by
  induction faces generalizing seen with
  | nil => exact ⟨List.nodup_nil, by simp [keepFirstOccurrences]⟩
  | cons f rest ih =>
    unfold keepFirstOccurrences
    by_cases hk : (f.family_name, f.style_name) ∈ seen
    · rw [if_pos hk]
      exact ih seen
    · rw [if_neg hk]
      have hkey : recordKey (mkGdiRecord f) = (f.family_name, f.style_name) := rfl
      obtain ⟨hnd, hni⟩ := ih ((f.family_name, f.style_name) :: seen)
      constructor
      · rw [List.map_cons, hkey, List.nodup_cons]
        exact ⟨fun hc => hni _ hc (List.mem_cons_self _ _), hnd⟩
      · intro k hkmem
        rw [List.map_cons, hkey, List.mem_cons] at hkmem
        rcases hkmem with rfl | hkmem
        · exact hk
        · exact fun hc => hni k hkmem (List.mem_cons_of_mem _ hc)

/-- C4: the GDI callback loop never keeps two records with the same
`(family_name, style_name)` key (also after the final sort), and its result
is exactly "keep the first occurrence of each key, skip later duplicates". -/
theorem gdi_dedup_correct (faces : List GdiFace) (s : AppState) :
    ((gdi_collect faces).map recordKey).Nodup
    ∧ gdi_collect faces = keepFirstOccurrences [] faces
    ∧ (((enumerate_gdi_fonts faces s).1.fonts).map recordKey).Nodup := by
  have heq : gdi_collect faces = keepFirstOccurrences [] faces := by
    unfold gdi_collect
    rw [foldl_enum_font_step]
    rfl
  have hnd : ((gdi_collect faces).map recordKey).Nodup := by
    rw [heq]
    exact (keepFirstOccurrences_nodup faces []).1
  refine ⟨hnd, heq, ?_⟩
  have hperm : List.Perm (((enumerate_gdi_fonts faces s).1.fonts).map recordKey)
      ((gdi_collect faces).map recordKey) :=
    (List.mergeSort_perm (gdi_collect faces) gdiLe).map recordKey
  exact hperm.nodup_iff.mpr hnd

/-! ## Membership lemmas for the adapter outputs -/

lemma mem_keepFirstOccurrences {r : FontInfo} :
    ∀ {faces : List GdiFace} {seen : List (String × String)},
      r ∈ keepFirstOccurrences seen faces → ∃ f ∈ faces, r = mkGdiRecord f := by
  intro faces
  induction faces with
  | nil => intro seen hr; cases hr
  | cons f rest ih =>
    intro seen hr
    rw [keepFirstOccurrences_cons] at hr
    by_cases hk : (f.family_name, f.style_name) ∈ seen
    · rw [if_pos hk] at hr
      obtain ⟨g, hg, hrg⟩ := ih hr
      exact ⟨g, List.mem_cons_of_mem _ hg, hrg⟩
    · rw [if_neg hk] at hr
      rcases List.mem_cons.mp hr with rfl | hr
      · exact ⟨f, List.mem_cons_self _ _, rfl⟩
      · obtain ⟨g, hg, hrg⟩ := ih hr
        exact ⟨g, List.mem_cons_of_mem _ hg, hrg⟩

lemma mem_gdi_collect {faces : List GdiFace} {r : FontInfo} (hr : r ∈ gdi_collect faces) :
    ∃ f ∈ faces, r = mkGdiRecord f := by
  unfold gdi_collect at hr
  rw [foldl_enum_font_step] at hr
  exact mem_keepFirstOccurrences (by simpa using hr)

lemma mem_dwCollect {fams : List DWFamily} {r : FontInfo} (hr : r ∈ dwCollect fams) :
    ∃ fam ∈ fams, ∃ f ∈ fam.faces, r = dwRecord fam.family_name f := by
  induction fams with
  | nil => cases hr
  | cons fam rest ih =>
    rcases List.mem_append.mp hr with hr | hr
    · obtain ⟨f, hf, rfl⟩ := List.mem_map.mp hr
      exact ⟨fam, List.mem_cons_self _ _, f, hf, rfl⟩
    · obtain ⟨fam', h1, f, h2, h3⟩ := ih hr
      exact ⟨fam', List.mem_cons_of_mem _ h1, f, h2, h3⟩

/-! ## C5: `is_variable` iff `variable_axes` non-empty -/

lemma append_ne_empty_right (a b : String) (h : b ≠ "") : a ++ b ≠ "" := by
  intro hc
  apply h
  have hd : a.data ++ b.data = [] := by
    have h2 := congrArg String.data hc
    rwa [String.data_append] at h2
  exact String.ext_iff.mpr (List.append_eq_nil.mp hd).2

lemma append_ne_empty_left (a b : String) (h : a ≠ "") : a ++ b ≠ "" := by
  intro hc
  apply h
  have hd : a.data ++ b.data = [] := by
    have h2 := congrArg String.data hc
    rwa [String.data_append] at h2
  exact String.ext_iff.mpr (List.append_eq_nil.mp hd).1

lemma axis_step_invariant (acc : String × Bool) (r : AxisRange)
    (h : acc.2 = true ↔ acc.1 ≠ "") :
    (axis_step acc r).2 = true ↔ (axis_step acc r).1 ≠ "" := by
  unfold axis_step
  by_cases hm : r.minValue ≠ r.maxValue
  · rw [if_pos hm]
    constructor
    · intro _
      exact append_ne_empty_left _ _ (append_ne_empty_right _ _ (by decide))
    · intro _
      rfl
  · rw [if_neg hm]
    exact h

lemma buildVariableAxes_invariant (ranges : List AxisRange) :
    (buildVariableAxes ranges).2 = true ↔ (buildVariableAxes ranges).1 ≠ "" := by
  have key : ∀ (l : List AxisRange) (acc : String × Bool), (acc.2 = true ↔ acc.1 ≠ "") →
      ((l.foldl axis_step acc).2 = true ↔ (l.foldl axis_step acc).1 ≠ "") := by
    intro l
    induction l with
    | nil => intro acc h; exact h
    | cons r rest ih =>
      intro acc h
      exact ih _ (axis_step_invariant acc r h)
  exact key ranges ("", false) (by simp)

/-- C5: every record committed by any of the three adapters satisfies
`is_variable = true ↔ variable_axes ≠ ""` — the FontSet axis loop sets the
flag exactly when it appends a fragment, and the GDI/DirectWrite adapters
leave both fields at their defaults. -/
theorem is_variable_iff_axes_nonempty (gfaces : List GdiFace) (fams : List DWFamily)
    (ffaces : List FSFace) (s : AppState) :
    (∀ r ∈ (enumerate_gdi_fonts gfaces s).1.fonts,
        r.is_variable = true ↔ r.variable_axes ≠ "")
    ∧ (∀ r ∈ (enumerate_directwrite_fonts (DWriteInput.ok fams) s).1.fonts,
        r.is_variable = true ↔ r.variable_axes ≠ "")
    ∧ (∀ r ∈ (enumerate_fontset_fonts (FontSetInput.ok ffaces) s).1.fonts,
        r.is_variable = true ↔ r.variable_axes ≠ "") := by
  refine ⟨?_, ?_, ?_⟩
  · intro r hr
    have hr2 : r ∈ (gdi_collect gfaces).mergeSort gdiLe := hr
    obtain ⟨f, _, rfl⟩ := mem_gdi_collect (List.mem_mergeSort.mp hr2)
    simp [mkGdiRecord]
  · intro r hr
    have hr2 : r ∈ (dwCollect fams).mergeSort pairLe := hr
    obtain ⟨fam, _, f, _, rfl⟩ := mem_dwCollect (List.mem_mergeSort.mp hr2)
    simp [dwRecord]
  · intro r hr
    have hr2 : r ∈ ((ffaces.map mkFSRecord).filter
        fun q => !q.family_name.isEmpty).mergeSort pairLe := hr
    obtain ⟨hmem, _⟩ := List.mem_filter.mp (List.mem_mergeSort.mp hr2)
    obtain ⟨f, _, rfl⟩ := List.mem_map.mp hmem
    simpa [mkFSRecord] using buildVariableAxes_invariant f.axisRanges

/-- A FontSet face with one variable axis (`wght 100-900`), used by the C5
witness. -/
def wVarFace : FSFace :=
  { file_path := "C:\\Fonts\\Variable.ttf"
    axisRanges := [{ tag := 0x74686777, minValue := 100, maxValue := 900 }]
    family_name := some "VarFont"
    style_name := some "Regular"
    weight_parse := some (some 400)
    style_parse := some (some 0) }

/-- C5 witness: the record built from `wVarFace` is committed by the FontSet
adapter and satisfies the equivalence, with both sides true. -/
theorem is_variable_iff_axes_nonempty_witness :
    mkFSRecord wVarFace ∈ (enumerate_fontset_fonts (FontSetInput.ok [wVarFace]) {}).1.fonts
    ∧ ((mkFSRecord wVarFace).is_variable = true ↔ (mkFSRecord wVarFace).variable_axes ≠ "")
    ∧ (mkFSRecord wVarFace).is_variable = true := by
  have hm : mkFSRecord wVarFace
      ∈ (enumerate_fontset_fonts (FontSetInput.ok [wVarFace]) {}).1.fonts := by
    show mkFSRecord wVarFace ∈ (([wVarFace].map mkFSRecord).filter
        fun q => !q.family_name.isEmpty).mergeSort pairLe
    exact List.mem_mergeSort.mpr (List.mem_filter.mpr ⟨by simp, by decide⟩)
  exact ⟨hm, (is_variable_iff_axes_nonempty [] [] [wVarFace] {}).2.2 _ hm, by decide⟩

/-! ## C6: sorted outputs -/

lemma gdiLe_trans : ∀ a b c : FontInfo, gdiLe a b → gdiLe b c → gdiLe a c := by
  intro a b c hab hbc
  simp only [gdiLe, decide_eq_true_eq] at *
  exact le_trans hab hbc

lemma gdiLe_total : ∀ a b : FontInfo, gdiLe a b || gdiLe b a := by
  intro a b
  simp only [gdiLe, Bool.or_eq_true, decide_eq_true_eq]
  exact le_total _ _

/-- The `(family_name, style_name)` lexicographic order, as a proposition. -/
def pairLeProp (a b : FontInfo) : Prop :=
  a.family_name.data < b.family_name.data
    ∨ (a.family_name.data = b.family_name.data ∧ a.style_name.data ≤ b.style_name.data)

lemma pairLe_trans : ∀ a b c : FontInfo, pairLe a b → pairLe b c → pairLe a c := by
  intro a b c hab hbc
  simp only [pairLe, decide_eq_true_eq] at *
  rcases hab with h1 | ⟨h1, h1s⟩ <;> rcases hbc with h2 | ⟨h2, h2s⟩
  · exact Or.inl (lt_trans h1 h2)
  · exact Or.inl (h2 ▸ h1)
  · exact Or.inl (h1 ▸ h2)
  · exact Or.inr ⟨h1.trans h2, le_trans h1s h2s⟩

lemma pairLe_total : ∀ a b : FontInfo, pairLe a b || pairLe b a := by
  intro a b
  simp only [pairLe, Bool.or_eq_true, decide_eq_true_eq]
  rcases lt_trichotomy a.family_name.data b.family_name.data with h | h | h
  · exact Or.inl (Or.inl h)
  · rcases le_total a.style_name.data b.style_name.data with hs | hs
    · exact Or.inl (Or.inr ⟨h, hs⟩)
    · exact Or.inr (Or.inr ⟨h.symm, hs⟩)
  · exact Or.inr (Or.inl h)

/-- C6: after a successful enumeration the GDI list is non-decreasing by
family name, and the DirectWrite and FontSet lists are non-decreasing by
`(family_name, style_name)` lexicographically, all under byte-wise ordinal
string comparison. -/
theorem enumeration_sorted (gfaces : List GdiFace) (fams : List DWFamily)
    (ffaces : List FSFace) (s : AppState) :
    ((enumerate_gdi_fonts gfaces s).1.fonts).Pairwise
        (fun a b => a.family_name.data ≤ b.family_name.data)
    ∧ ((enumerate_directwrite_fonts (DWriteInput.ok fams) s).1.fonts).Pairwise pairLeProp
    ∧ ((enumerate_fontset_fonts (FontSetInput.ok ffaces) s).1.fonts).Pairwise pairLeProp := by
  refine ⟨?_, ?_, ?_⟩
  · show ((gdi_collect gfaces).mergeSort gdiLe).Pairwise _
    exact (List.sorted_mergeSort gdiLe_trans gdiLe_total (gdi_collect gfaces)).imp
      fun h => by simpa [gdiLe] using h
  · show ((dwCollect fams).mergeSort pairLe).Pairwise _
    exact (List.sorted_mergeSort pairLe_trans pairLe_total (dwCollect fams)).imp
      fun h => by simpa [pairLe, pairLeProp] using h
  · show ((((ffaces.map mkFSRecord).filter
        fun q => !q.family_name.isEmpty)).mergeSort pairLe).Pairwise _
    exact (List.sorted_mergeSort pairLe_trans pairLe_total _).imp
      fun h => by simpa [pairLe, pairLeProp] using h

/-! ## C7: no empty family names from the FontSet adapter -/

/-- C7: the FontSet adapter never commits a record whose family name is
empty — such faces are dropped before the sort. -/
theorem fontset_no_empty_family (faces : List FSFace) (s : AppState) :
    ∀ r ∈ (enumerate_fontset_fonts (FontSetInput.ok faces) s).1.fonts,
      r.family_name ≠ "" := by
  intro r hr
  have hr2 : r ∈ ((faces.map mkFSRecord).filter
      fun q => !q.family_name.isEmpty).mergeSort pairLe := hr
  have h4 := (List.mem_filter.mp (List.mem_mergeSort.mp hr2)).2
  intro hc
  rw [hc] at h4
  exact absurd h4 (by decide)

/-- A FontSet face with a non-empty resolved family name, used by the C7
witness. -/
def wKeepFace : FSFace :=
  { file_path := ""
    axisRanges := []
    family_name := some "Arial"
    style_name := some "Regular"
    weight_parse := some (some 400)
    style_parse := some (some 0) }

/-- C7 witness: the record built from `wKeepFace` is committed and its
family name is non-empty. -/
theorem fontset_no_empty_family_witness :
    mkFSRecord wKeepFace ∈ (enumerate_fontset_fonts (FontSetInput.ok [wKeepFace]) {}).1.fonts
    ∧ (mkFSRecord wKeepFace).family_name ≠ "" := by
  have hm : mkFSRecord wKeepFace
      ∈ (enumerate_fontset_fonts (FontSetInput.ok [wKeepFace]) {}).1.fonts := by
    show mkFSRecord wKeepFace ∈ (([wKeepFace].map mkFSRecord).filter
        fun q => !q.family_name.isEmpty).mergeSort pairLe
    exact List.mem_mergeSort.mpr (List.mem_filter.mpr ⟨by simp, by decide⟩)
  exact ⟨hm, fontset_no_empty_family [wKeepFace] {} _ hm⟩

/-! ## C3: selection resolution -/

/-- A DirectWrite face whose family-name lookup failed (resolved to `""`,
the documented per-field recovery), used by the C3 counterexample. -/
def cexFace : DWFace :=
  { style_name := "Regular", weight := 400, italic := false, is_mono := false }

/-- Reachable session state for the C3 counterexample: the DirectWrite
adapter committed one record with an empty family name. -/
def cexState : AppState :=
  (enumerate_directwrite_fonts
    (DWriteInput.ok [{ family_name := "", faces := [cexFace] }]) {}).1

lemma cexState_eq :
    cexState =
      { fonts := [dwRecord "" cexFace], filtered_indices := [0], filter_text := ""
        current_mode := .DirectWrite, selected_font := "" } := by
  have hfonts : cexState.fonts = [dwRecord "" cexFace] := by
    show (dwCollect [{ family_name := "", faces := [cexFace] }]).mergeSort pairLe = _
    simp [dwCollect]
  have h2 : cexState =
      { fonts := cexState.fonts, filtered_indices := filter_indices cexState.fonts ""
        filter_text := "", current_mode := .DirectWrite, selected_font := "" } := rfl
  rw [h2, hfonts]
  decide

/-- C3 counterexample: in a reachable state, row 0 is in range of
`visible_indices` and resolves to record 0 of `all_records`, yet the handler
renders no preview (the resolved family name is empty); `selected_family`
is still set to that (empty) family name. -/
theorem selection_empty_family_no_preview :
    cexState.filtered_indices[0]? = some 0
    ∧ 0 < cexState.fonts.length
    ∧ (handle_selection cexState 0).2 = none
    ∧ (handle_selection cexState 0).1.selected_font = "" := by
  rw [cexState_eq]
  decide

/-- C3 amended: a selection event carrying row index `i` with
`visible_indices[i] = idx` and `idx < |all_records|` resolves the record at
position `idx` of `all_records` (not literal row `i`), sets
`selected_family` to that record's family name, and renders the preview
from that record — except that a record whose family name is empty renders
no preview (while still setting `selected_family`).  An out-of-range `i`
or stored index is a no-op: state and preview unchanged. -/
theorem handle_selection_correct (s : AppState) (i : Nat) :
    (∀ idx, s.filtered_indices[i]? = some idx →
      ∀ h : idx < s.fonts.length,
        (handle_selection s i).1
            = { s with selected_font := (s.fonts.get ⟨idx, h⟩).family_name }
          ∧ (handle_selection s i).2
              = (if (s.fonts.get ⟨idx, h⟩).family_name = "" then none
                 else some { family := (s.fonts.get ⟨idx, h⟩).family_name
                             weight := (s.fonts.get ⟨idx, h⟩).weight
                             italic := (s.fonts.get ⟨idx, h⟩).italic
                             text := preview_text (s.fonts.get ⟨idx, h⟩).family_name
                                 (s.fonts.get ⟨idx, h⟩).style_name }))
    ∧ (s.filtered_indices[i]? = none → handle_selection s i = (s, none))
    ∧ (∀ idx, s.filtered_indices[i]? = some idx → s.fonts.length ≤ idx →
        handle_selection s i = (s, none)) := by
  refine ⟨?_, ?_, ?_⟩
  · intro idx hidx h
    unfold handle_selection
    rw [hidx]
    simp only [dif_pos h]
    by_cases hf : (s.fonts.get ⟨idx, h⟩).family_name = ""
    · rw [if_pos ((String.isEmpty_iff _).mpr hf), if_pos hf]
      exact ⟨rfl, rfl⟩
    · rw [if_neg (by simpa using fun hc => hf ((String.isEmpty_iff _).mp hc)), if_neg hf]
      exact ⟨rfl, rfl⟩
  · intro hnone
    unfold handle_selection
    rw [hnone]
  · intro idx hidx hle
    unfold handle_selection
    rw [hidx]
    simp only [dif_neg (not_lt.mpr hle)]

/-- Concrete state for the C3 witness: one record, visible at row 0. -/
def wSelState : AppState :=
  { fonts := [{ family_name := "Arial", style_name := "Regular", weight := 400 }]
    filtered_indices := [0]
    filter_text := ""
    current_mode := .DirectWrite
    selected_font := "" }

/-- C3 witness: selecting row 0 resolves record 0, remembers `"Arial"` and
renders the preview from that record. -/
theorem handle_selection_correct_witness :
    wSelState.filtered_indices[0]? = some 0
    ∧ 0 < wSelState.fonts.length
    ∧ (handle_selection wSelState 0).1 = { wSelState with selected_font := "Arial" }
    ∧ (handle_selection wSelState 0).2
        = some { family := "Arial", weight := 400, italic := false
                 text := preview_text "Arial" "Regular" } := by
  have h0 : wSelState.filtered_indices[0]? = some 0 := rfl
  have hlt : (0 : Nat) < wSelState.fonts.length := by decide
  obtain ⟨h1, h2⟩ := (handle_selection_correct wSelState 0).1 0 h0 hlt
  refine ⟨h0, hlt, ?_, ?_⟩
  · rw [h1]
    rfl
  · rw [h2]
    rfl

end FontEnum
